import Mathlib

/-!
# Verification of the `classifier` CLI core (cmd/classifier/main.go)

Shallow embedding of the classification-and-placement pipeline:
extension-to-category resolution, date-folder derivation, content-hash
deduplication, collision-free destination naming, and the walk loop of
`run`.  Go strings are modelled as `List Char` (the source only ever
inspects ASCII bytes of the strings it manipulates, where Go byte length
and rune count coincide); Go maps used by the program are modelled as
association lists with most-recent-insertion-first lookup, which agrees
with Go map lookup because insertions overwrite.  Filesystem state is a
list of existing destination paths; `filepath.Join` on the already-clean
components the program joins is plain `dir ++ "/" ++ name`.  The
`regexp.Regexp` collaborator is abstracted to its two observations used
by the code, `FindStringSubmatch` and `SubexpNames`.
-/

namespace Classifier

/-- Go strings, as lists of characters. -/
abbrev GoStr := List Char

/-- String literal helper. -/
def str (s : String) : GoStr := s.data

/-- `strings.ToLower` (the program only distinguishes ASCII letters). -/
def goToLower (s : GoStr) : GoStr := s.map Char.toLower

/-- `strings.TrimPrefix(s, pre)`. -/
def goTrimPre (s pre : GoStr) : GoStr :=
  if pre.isPrefixOf s then s.drop pre.length else s

/-- `strings.TrimSuffix(s, suf)`. -/
def goTrimSuf (s suf : GoStr) : GoStr :=
  if suf.isSuffixOf s then s.take (s.length - suf.length) else s

/-- Loop of `filepath.Ext`: scan the path from its last byte towards the
front (the argument here is the reversed path), stop at a path separator,
return the suffix starting at the final dot.  `acc` holds the characters
already scanned, in original order. -/
def goExtRev : List Char → GoStr → GoStr
  | [], _ => []
  | c :: rest, acc =>
    if c = '/' then []
    else if c = '.' then '.' :: acc
    else goExtRev rest (c :: acc)

/-- `filepath.Ext(path)`: the suffix beginning at the final dot in the
final path element, empty if there is none. -/
def goExt (path : GoStr) : GoStr := goExtRev path.reverse []

/-- `filepath.Join(dir, name)` for the clean, nonempty components joined
by this program. -/
def goJoin (dir name : GoStr) : GoStr := dir ++ '/' :: name

/-- `filepath.IsAbs` on Unix: the path starts with `/`. -/
def goIsAbs : GoStr → Bool
  | [] => false
  | c :: _ => c = '/'

/-- Decimal representation of a natural number (Go `%d` for the positive
counters used by the program). -/
def natChars (n : Nat) : GoStr := (Nat.repr n).data

/-- Go map lookup over the association-list model: the most recent
insertion is at the head. -/
def mapLookup (m : List (GoStr × GoStr)) (k : GoStr) : Option GoStr :=
  match m with
  | [] => none
  | (k', v) :: rest => if k' = k then some v else mapLookup rest k

/-- Go map insertion: prepending makes `mapLookup` return the newest
binding, matching overwrite semantics. -/
def mapSet (m : List (GoStr × GoStr)) (k v : GoStr) : List (GoStr × GoStr) :=
  (k, v) :: m

/-- `allDigits` (main.go): every byte is an ASCII digit and the string is
nonempty. -/
def allDigits (s : GoStr) : Bool :=
  (s.all fun c => decide ('0' ≤ c) && decide (c ≤ '9')) && !s.isEmpty

/-- `config`: categories, default category, date patterns (main.go lines
20-24).  The date patterns live in the compiled `dateResolver` below. -/
structure category where
  name : GoStr
  extensions : List GoStr

structure config where
  categories : List category
  defaultCategory : GoStr

/-- `categoryResolver` (main.go lines 206-209). -/
structure categoryResolver where
  defaultCategory : GoStr
  extToCategory : List (GoStr × GoStr)

/-- Inner loop of `newCategoryResolver`: insert one configured extension
after lowercasing and stripping a leading dot; empty results are
ignored. -/
def insertExt (catName : GoStr) (m : List (GoStr × GoStr)) (ext : GoStr) :
    List (GoStr × GoStr) :=
  let clean := goTrimPre (goToLower ext) (str ".")
  if clean = [] then m else mapSet m clean catName

/-- `newCategoryResolver` (main.go lines 211-231). -/
def newCategoryResolver (cfg : config) : categoryResolver :=
  let d := if cfg.defaultCategory = [] then str "others" else cfg.defaultCategory
  let table := cfg.categories.foldl
    (fun m cat => cat.extensions.foldl (insertExt cat.name) m) []
  ⟨d, table⟩

/-- `categoryResolver.categoryFor` (main.go lines 233-242). -/
def categoryResolver.categoryFor (r : categoryResolver) (name : GoStr) : GoStr :=
  let ext := goTrimPre (goToLower (goExt name)) (str ".")
  if ext = [] then r.defaultCategory
  else
    match mapLookup r.extToCategory ext with
    | some cat => cat
    | none => r.defaultCategory

/-- The characters of `name` after its last `'.'` (all of `name` when it
has no dot). -/
def afterLastDot (name : GoStr) : GoStr :=
  (name.reverse.takeWhile (fun c => c ≠ '.')).reverse

/-- `categoryFor` as claim C5 states it: default category when the
filename has no `'.'`; otherwise look up the lowercased substring after
the last `'.'` in the extension table, falling back to the default. -/
def claimedCategoryFor (r : categoryResolver) (name : GoStr) : GoStr :=
  if '.' ∈ name then
    match mapLookup r.extToCategory (goToLower (afterLastDot name)) with
    | some cat => cat
    | none => r.defaultCategory
  else r.defaultCategory

/-- Abstraction of a compiled `regexp.Regexp`, reduced to the two
observations `dateResolver.resolve` makes of it: `SubexpNames()` (whose
first element is always the empty name) and `FindStringSubmatch(name)`
(whose result, when non-nil, has the full match at index 0 followed by
one entry per capturing group, the same length as `SubexpNames()`). -/
structure GoRegexp where
  subexpNames : List GoStr
  findSubmatch : GoStr → Option (List GoStr)

/-- `dateResolver` (main.go lines 41-43). -/
structure dateResolver where
  patterns : List GoRegexp

/-- Loop over `subexpNames` in `resolve` (main.go lines 269-276): the
capture of the group named "year" is assigned to `year`, of "month" to
`month`; the pairs are `(subexpNames[i], ms[i])`. -/
def extractNamedLoop : List (GoStr × GoStr) → GoStr → GoStr → GoStr × GoStr
  | [], y, m => (y, m)
  | (v, mi) :: rest, y, m =>
    extractNamedLoop rest (if v = str "year" then mi else y)
      (if v = str "month" then mi else m)

/-- `fallbackYearMonth`'s loop (main.go lines 291-306): scan `ms`
left to right; the first 4-character all-digit entry becomes the year
(and `continue`s), the first 2-character all-digit entry becomes the
month; break once both are set. -/
def fallbackLoop : List GoStr → GoStr → GoStr → GoStr × GoStr
  | [], y, m => (y, m)
  | t :: rest, y, m =>
    if t.length = 4 ∧ allDigits t = true ∧ y = [] then fallbackLoop rest t m
    else
      let m2 := if t.length = 2 ∧ allDigits t = true ∧ m = [] then t else m
      if y ≠ [] ∧ m2 ≠ [] then (y, m2) else fallbackLoop rest y m2

/-- `fallbackYearMonth` (main.go lines 291-306). -/
def fallbackYearMonth (ms : List GoStr) : GoStr × GoStr :=
  fallbackLoop ms [] []

/-- The per-pattern extraction cascade of `resolve` (main.go lines
267-283): named groups, then positional overwrite when `year` is still
empty and the match slice has at least three entries, then
`fallbackYearMonth` over the whole match slice when `year` or `month` is
still empty. -/
def extractYearMonth (subexp : List GoStr) (ms : List GoStr) :
    GoStr × GoStr :=
  let p0 := extractNamedLoop (subexp.zip ms) [] []
  let p1 := if p0.1 = [] ∧ ms.length ≥ 3 then
      (ms.getD 1 [], ms.getD 2 []) else p0
  if p1.1 = [] ∨ p1.2 = [] then fallbackYearMonth ms else p1

/-- Pattern loop of `dateResolver.resolve` (main.go lines 260-289):
first pattern whose match yields a 4-character year and 2-character
month wins; Go's `("", "", false)` result is `none` here, and success
carries `(year, year ++ month)`. -/
def resolveLoop : List GoRegexp → GoStr → Option (GoStr × GoStr)
  | [], _ => none
  | re :: rest, name =>
    match re.findSubmatch name with
    | none => resolveLoop rest name
    | some ms =>
      let p := extractYearMonth re.subexpNames ms
      if p.1.length = 4 ∧ p.2.length = 2 then some (p.1, p.1 ++ p.2)
      else resolveLoop rest name

/-- `dateResolver.resolve` (main.go lines 260-289). -/
def dateResolver.resolve (r : dateResolver) (name : GoStr) :
    Option (GoStr × GoStr) :=
  resolveLoop r.patterns name

/-- First entry of `ts` that is all digits of length `k`, empty string
when none. -/
def scanFirstToken (k : Nat) (ts : List GoStr) : GoStr :=
  (ts.filter fun t => decide (t.length = k) && allDigits t).headD []

/-- The extraction cascade as claim C3 states it: (1) the named groups
"year" and "month" when both are present and non-empty; (2) otherwise,
when the match has at least two captured groups, the first two captured
groups positionally; (3) otherwise scan the captured groups — not the
full match — left to right for the first 4-digit all-numeric token
(year) and the first 2-digit all-numeric token (month). -/
def claimedExtractYearMonth (subexp : List GoStr) (ms : List GoStr) :
    GoStr × GoStr :=
  let p0 := extractNamedLoop (subexp.zip ms) [] []
  if p0.1 ≠ [] ∧ p0.2 ≠ [] then p0
  else if ms.length ≥ 3 then (ms.getD 1 [], ms.getD 2 [])
  else (scanFirstToken 4 (ms.drop 1), scanFirstToken 2 (ms.drop 1))

/-- The pattern loop with claim C3's extraction cascade in place of the
code's. -/
def claimedResolveLoop : List GoRegexp → GoStr → Option (GoStr × GoStr)
  | [], _ => none
  | re :: rest, name =>
    match re.findSubmatch name with
    | none => claimedResolveLoop rest name
    | some ms =>
      let p := claimedExtractYearMonth re.subexpNames ms
      if p.1.length = 4 ∧ p.2.length = 2 then some (p.1, p.1 ++ p.2)
      else claimedResolveLoop rest name

/-- The extraction cascade as amended: year and month are assigned
independently from the last groups named "year" and "month"; when the
year is still empty and the match slice has at least three entries
(full match plus two groups) both are overwritten positionally from the
first two captured groups; when year or month is still empty after
that, both are recomputed by scanning the entire match slice — the full
match at index 0 included — left to right for the first 4-digit
all-numeric token (year) and the first 2-digit all-numeric token
(month). -/
def amendedExtractYearMonth (subexp : List GoStr) (ms : List GoStr) :
    GoStr × GoStr :=
  let p0 := extractNamedLoop (subexp.zip ms) [] []
  let p1 := if p0.1 = [] ∧ ms.length ≥ 3 then
      (ms.getD 1 [], ms.getD 2 []) else p0
  if p1.1 = [] ∨ p1.2 = [] then
    (scanFirstToken 4 ms, scanFirstToken 2 ms)
  else p1

/-- `minImageSize` (main.go line 31): `1 << 20` bytes. -/
def minImageSize : Int := 2 ^ 20

/-- Probe loop of `uniqueDestPath` (main.go lines 349-357): try
`base_i.ext` for `i = 1, 2, ...` and return the first candidate that
does not exist.  `fsE` is existence on the destination filesystem (the
`os.Stat` collaborator); the Go loop is unbounded, so it is given fuel
here and `none` models the run never finding a free name. -/
def probeLoop (fsE : GoStr → Bool) (dir base ext : GoStr) :
    Nat → Nat → Option GoStr
  | _, 0 => none
  | i, fuel + 1 =>
    let candidate := goJoin dir (base ++ '_' :: natChars i ++ ext)
    if fsE candidate then probeLoop fsE dir base ext (i + 1) fuel
    else some candidate

/-- `uniqueDestPath` (main.go lines 337-358). -/
def uniqueDestPath (fsE : GoStr → Bool) (dir name : GoStr) (fuel : Nat) :
    Option GoStr :=
  let target := goJoin dir name
  if fsE target then
    let ext := goExt name
    let base := goTrimSuf name ext
    probeLoop fsE dir base ext 1 fuel
  else some target

/-- The candidate name probed at index `i`:
`fmt.Sprintf("%s_%d%s", base, i, ext)`. -/
def candidateName (name : GoStr) (i : Nat) : GoStr :=
  goTrimSuf name (goExt name) ++ '_' :: natChars i ++ goExt name

/-- `skippedEntry` (main.go lines 36-39). -/
structure skippedEntry where
  srcPath : GoStr
  destPath : GoStr
deriving DecidableEq

/-- A regular file met by the walk: its full source path, base name,
size, and the hex SHA-256 digest of its bytes (`fileHash`, main.go lines
360-372, abstracted to the digest value). -/
structure FileEntry where
  path : GoStr
  name : GoStr
  size : Int
  hash : GoStr
deriving DecidableEq

/-- One entry yielded by `filepath.WalkDir` in walk order: a directory,
a non-regular file (symlink, device, ...), or a regular file. -/
inductive WalkEntry where
  | dir : GoStr → WalkEntry
  | irregular : GoStr → WalkEntry
  | file : FileEntry → WalkEntry
deriving DecidableEq

/-- Mutable state of `run`'s walk: the destination filesystem (existing
paths, directories and files alike), `hashIndex`, the `skipped` list,
and the copies performed so far as (source path, destination path)
pairs. -/
structure RunState where
  fs : List GoStr
  hashIndex : List (GoStr × GoStr)
  skipped : List skippedEntry
  copies : List (GoStr × GoStr)
deriving DecidableEq

/-- Immutable context of one run: the two resolvers, the destination
root, and the probe fuel for `uniqueDestPath`. -/
structure RunCtx where
  resolver : categoryResolver
  dres : dateResolver
  dest : GoStr
  fuel : Nat

/-- Target-directory computation (main.go lines 133-141): the category
directory under `dest`, extended with `<year>/<yearMonth>` when the
category is "images" or "movies" and the date resolver succeeds.  The
first component is the target directory handed to `uniqueDestPath`, the
second the chain of directories `MkdirAll` brings into existence. -/
def targetDirs (ctx : RunCtx) (category name : GoStr) : GoStr × List GoStr :=
  let cDir := goJoin ctx.dest category
  let dateRes := if category = str "images" ∨ category = str "movies"
    then ctx.dres.resolve name else none
  match dateRes with
  | some (year, ym) =>
    (goJoin (goJoin cDir year) ym,
      [cDir, goJoin cDir year, goJoin (goJoin cDir year) ym])
  | none => (cDir, [cDir])

/-- Body of the `WalkDir` callback for a regular file (main.go lines
116-154): category, image-size gate, hash lookup with skip recording,
target directory (with date bucket for images and movies), `MkdirAll`,
`uniqueDestPath`, copy, hash registration. -/
def processFile (ctx : RunCtx) (st : RunState) (f : FileEntry) :
    Option RunState :=
  let category := ctx.resolver.categoryFor f.name
  if category = str "images" ∧ f.size < minImageSize then some st
  else
    match mapLookup st.hashIndex f.hash with
    | some existingPath =>
      some { st with skipped := st.skipped ++ [⟨f.path, existingPath⟩] }
    | none =>
      let td := targetDirs ctx category f.name
      let fs1 := st.fs ++ td.2
      match uniqueDestPath (fun p => fs1.contains p) td.1 f.name ctx.fuel with
      | none => none
      | some finalPath =>
        some { fs := fs1 ++ [finalPath],
               hashIndex := mapSet st.hashIndex f.hash finalPath,
               skipped := st.skipped,
               copies := st.copies ++ [(f.path, finalPath)] }

/-- The `WalkDir` callback (main.go lines 99-155): directories and
non-regular entries are skipped without effect. -/
def processEntry (ctx : RunCtx) (st : RunState) : WalkEntry → Option RunState
  | .dir _ => some st
  | .irregular _ => some st
  | .file f => processFile ctx st f

/-- The walk itself: entries in directory-walk order, aborting on the
first failing step (`WalkDir` stops on the first returned error). -/
def runWalk (ctx : RunCtx) : List WalkEntry → RunState → Option RunState
  | [], st => some st
  | e :: rest, st =>
    match processEntry ctx st e with
    | none => none
    | some st' => runWalk ctx rest st'

/-- `writeWarnings` (main.go lines 374-392), reduced to the rows it
writes: one two-column row per skipped entry, in order. -/
def writeWarnings (entries : List skippedEntry) : List (List GoStr) :=
  entries.map fun e => [e.srcPath, e.destPath]

/-- `run` after argument validation (main.go lines 96-167): walk, then
write `<dest>/warn.csv` exactly when at least one entry was skipped.
The result pairs the final state with the optional report
(path, rows). -/
def classifierRun (ctx : RunCtx) (entries : List WalkEntry) (st0 : RunState) :
    Option (RunState × Option (GoStr × List (List GoStr))) :=
  match runWalk ctx entries st0 with
  | none => none
  | some st =>
    some (st, if st.skipped.length > 0
      then some (goJoin ctx.dest (str "warn.csv"), writeWarnings st.skipped)
      else none)

/-- `usageError` (main.go lines 170-172). -/
def usageError (msg : GoStr) : GoStr :=
  msg ++ str "; usage: classifier [-config path|-c path] <src-abs-dir> <dest-abs-dir>"

/-- Argument validation of `run` (main.go lines 63-72): exactly two
positional arguments, both absolute. -/
def checkArgs (args : List GoStr) : Except GoStr (GoStr × GoStr) :=
  if args.length ≠ 2 then
    .error (usageError (str "expected 2 arguments: <src-abs-dir> <dest-abs-dir>"))
  else
    let src := args.getD 0 []
    let dest := args.getD 1 []
    if !goIsAbs src || !goIsAbs dest then
      .error (usageError (str "source and destination must be absolute paths"))
    else .ok (src, dest)

/-- Failure modes of `run`'s startup (main.go lines 63-94). -/
inductive StartupError where
  | usage : GoStr → StartupError
  | config : StartupError
  | source : StartupError
deriving DecidableEq

/-- Startup sequence of `run` (main.go lines 63-94): validation, config
load, source stat, then `MkdirAll(dest)`.  `cfgOk` abstracts the config
collaborator, `srcIsDir` the `os.Stat` of the source (`none` = stat
failed).  The second component lists the directories created, in order:
the only startup mutation is creating the destination, and it happens
last. -/
def startup (args : List GoStr) (cfgOk : Bool) (srcIsDir : Option Bool) :
    Except StartupError (GoStr × GoStr) × List GoStr :=
  match checkArgs args with
  | .error m => (.error (.usage m), [])
  | .ok (src, dest) =>
    if !cfgOk then (.error .config, [])
    else
      match srcIsDir with
      | none => (.error .source, [])
      | some false => (.error .source, [])
      | some true => (.ok (src, dest), [dest])

/-- `main` (main.go lines 45-50): exit code 1 on any error from `run`,
0 otherwise. -/
def mainExitCode (r : Except StartupError (GoStr × GoStr)) : Nat :=
  match r with
  | .error _ => 1
  | .ok _ => 0

/-- The image-size gate condition (main.go line 119). -/
def gated (ctx : RunCtx) (f : FileEntry) : Prop :=
  ctx.resolver.categoryFor f.name = str "images" ∧ f.size < minImageSize

instance (ctx : RunCtx) (f : FileEntry) : Decidable (gated ctx f) := by
  unfold gated; infer_instance

/-- A walk entry that would insert hash `h` into the dedup index: a
regular file passing the gate whose content hash is `h` and which is not
itself a duplicate (it is the first seen). -/
def introducesHash (ctx : RunCtx) (h : GoStr) : WalkEntry → Prop
  | .file f => ¬ gated ctx f ∧ f.hash = h
  | _ => False

/-- Model of the Go regexp `(?P<year>\d{2})(\d{2})` restricted to the
input "2024": `SubexpNames()` is `["", "year", ""]` and
`FindStringSubmatch("2024")` is `["2024", "20", "24"]` (no match on any
other input used here). -/
def cexPattern : GoRegexp :=
  { subexpNames := [[], str "year", []],
    findSubmatch := fun s =>
      if s = str "2024" then some [str "2024", str "20", str "24"] else none }

/-- Model of the Go regexp `(\d{4})-(\d{2})` restricted to the input
"2024-01": `SubexpNames()` is `["", "", ""]` and
`FindStringSubmatch("2024-01")` is `["2024-01", "2024", "01"]`. -/
def patYM : GoRegexp :=
  { subexpNames := [[], [], []],
    findSubmatch := fun s =>
      if s = str "2024-01" then some [str "2024-01", str "2024", str "01"]
      else none }

/-- The configuration exercised by the repository's CLI tests
(main_test.go / the config embedded for the default run). -/
def cfgEx : config :=
  { categories :=
      [⟨str "images", [str "jpg", str "jpeg", str "png"]⟩,
       ⟨str "movies", [str "mp4", str "mpeg"]⟩,
       ⟨str "documents", [str "txt", str "log"]⟩],
    defaultCategory := str "others" }

/-- Outcome (a) of claim C2: the file was copied, to a destination path
that did not previously exist, and nothing was recorded as skipped. -/
def copyOutcome (st st' : RunState) (f : FileEntry) : Prop :=
  ∃ d, d ∉ st.fs ∧ st'.copies = st.copies ++ [(f.path, d)]
    ∧ st'.skipped = st.skipped

/-- Outcome (b) of claim C2: the file was suppressed as a content
duplicate — no copy, one skip record pointing at the path already kept
for its hash. -/
def dupOutcome (st st' : RunState) (f : FileEntry) : Prop :=
  ∃ d, mapLookup st.hashIndex f.hash = some d ∧ st'.copies = st.copies
    ∧ st'.skipped = st.skipped ++ [⟨f.path, d⟩]

/-- Outcome (c) of claim C2: an image below the size threshold, passed
over silently — the state is untouched. -/
def gateOutcome (ctx : RunCtx) (st st' : RunState) (f : FileEntry) : Prop :=
  gated ctx f ∧ st' = st

/-- A 2 MiB image used by witnesses. -/
def fBigEx : FileEntry := ⟨str "/s/a.jpg", str "a.jpg", 2 ^ 21, str "h1"⟩

/-- The state after `fBigEx` is processed from the empty state under
`ctxEx` (defined below): its category directory exists and the copy is
recorded. -/
def stAfterEx : RunState :=
  ⟨[str "/d/images", str "/d/images/a.jpg"],
   [(str "h1", str "/d/images/a.jpg")], [],
   [(str "/s/a.jpg", str "/d/images/a.jpg")]⟩

/-- A second 2 MiB image with the same content hash as `fBigEx` but a
different name and source directory. -/
def fDupEx : FileEntry := ⟨str "/s/n/b.jpg", str "b.jpg", 2 ^ 21, str "h1"⟩

/-- The state after processing `fBigEx` then `fDupEx` from the empty
state: the first is copied, the second suppressed with a skip record
pointing at the first file's destination. -/
def stDupEx : RunState :=
  ⟨[str "/d/images", str "/d/images/a.jpg"],
   [(str "h1", str "/d/images/a.jpg")],
   [⟨str "/s/n/b.jpg", str "/d/images/a.jpg"⟩],
   [(str "/s/a.jpg", str "/d/images/a.jpg")]⟩

/-- The state after a 2 MiB text file `/s/delta.txt` with hash "h9" has
been copied to the documents category. -/
def stTxtEx : RunState :=
  ⟨[str "/d/documents", str "/d/documents/delta.txt"],
   [(str "h9", str "/d/documents/delta.txt")], [],
   [(str "/s/delta.txt", str "/d/documents/delta.txt")]⟩

/-- An image whose bytes hash to "h9" — the same content as the text
file recorded in `stTxtEx`, under a different category. -/
def fJpgDup : FileEntry := ⟨str "/s/pic.jpg", str "pic.jpg", 2 ^ 21, str "h9"⟩

/-- A concrete run context for witnesses: the test configuration, one
date pattern, destination `/d`, ample probe fuel. -/
def ctxEx : RunCtx :=
  { resolver := newCategoryResolver cfgEx, dres := ⟨[patYM]⟩,
    dest := str "/d", fuel := 9 }

/-- The state at the start of a run over an empty destination. -/
def stEmpty : RunState := ⟨[], [], [], []⟩

/-! ## Lemmas about `filepath.Ext` and the category resolver -/

theorem goExtRev_eq (l : List Char) (acc : GoStr) (h : '/' ∉ l) :
    goExtRev l acc =
      if '.' ∈ l then '.' :: ((l.takeWhile fun c => c ≠ '.').reverse ++ acc)
      else [] := by
  induction l generalizing acc with
  | nil => simp [goExtRev]
  | cons c rest ih =>
    simp only [List.mem_cons, not_or] at h
    obtain ⟨hc, hrest⟩ := h
    by_cases hdot : c = '.'
    · subst hdot
      simp [goExtRev, List.takeWhile_cons]
    · have hc' : ¬ c = '/' := fun hh => hc hh.symm
      have hdot' : ¬ '.' = c := fun hh => hdot hh.symm
      simp only [goExtRev, if_neg hc', if_neg hdot,
        ih (c :: acc) hrest, List.mem_cons, List.takeWhile_cons]
      by_cases hm : '.' ∈ rest
      · simp [hm, hdot', hdot, List.append_assoc]
      · simp [hm, hdot']

theorem goExt_eq (name : GoStr) (h : '/' ∉ name) :
    goExt name = if '.' ∈ name then '.' :: afterLastDot name else [] := by
  unfold goExt afterLastDot
  rw [goExtRev_eq name.reverse [] (by simpa using h)]
  simp

theorem insertExt_keeps (catName : GoStr) (m : List (GoStr × GoStr))
    (ext : GoStr) (h : mapLookup m [] = none) :
    mapLookup (insertExt catName m ext) [] = none := by
  simp only [insertExt, mapSet]
  split
  · exact h
  · next hne => simp [mapLookup, hne, h]

theorem foldl_insertExt_keeps (catName : GoStr) (exts : List GoStr)
    (m : List (GoStr × GoStr)) (h : mapLookup m [] = none) :
    mapLookup (exts.foldl (insertExt catName) m) [] = none := by
  induction exts generalizing m with
  | nil => exact h
  | cons e rest ih => exact ih _ (insertExt_keeps _ _ _ h)

theorem table_no_empty_key (cfg : config) :
    mapLookup (newCategoryResolver cfg).extToCategory [] = none := by
  unfold newCategoryResolver
  simp only []
  generalize hm : (List.foldl _ _ _ : List (GoStr × GoStr)) = table
  subst hm
  exact go cfg.categories []  (by simp [mapLookup])
where
  go (cats : List category) (m : List (GoStr × GoStr))
      (h : mapLookup m [] = none) :
      mapLookup
        (cats.foldl (fun m cat => cat.extensions.foldl (insertExt cat.name) m) m)
        [] = none := by
    induction cats generalizing m with
    | nil => exact h
    | cons c rest ih => exact ih _ (foldl_insertExt_keeps _ _ _ h)

theorem toLower_dot_cons (l : GoStr) :
    goTrimPre (goToLower ('.' :: l)) (str ".") = goToLower l := by
  have : Char.toLower '.' = '.' := by decide
  simp [goToLower, goTrimPre, str, List.isPrefixOf, this]

/-- C5: for every filename (a base name, so free of path separators),
`categoryFor` returns the configured default category when the name has
no `'.'`; otherwise the category mapped to the lowercased substring
after the last `'.'` in the extension table when that entry exists;
otherwise the default category.  It is total — every branch produces a
category name — and matching is case-insensitive, the lookup key being
lowercased against the lowercased table. -/
theorem claim_C5 (cfg : config) (name : GoStr) (hsep : '/' ∉ name) :
    (newCategoryResolver cfg).categoryFor name
      = claimedCategoryFor (newCategoryResolver cfg) name := by
  unfold categoryResolver.categoryFor claimedCategoryFor
  rw [goExt_eq name hsep]
  by_cases hdot : '.' ∈ name
  · simp only [if_pos hdot, toLower_dot_cons]
    by_cases hext : goToLower (afterLastDot name) = []
    · rw [if_pos hext, hext, table_no_empty_key]
    · rw [if_neg hext]
  · simp only [if_neg hdot]
    simp [goToLower, goTrimPre, str, List.isPrefixOf]

/-- C5 witness: the theorem applied to the repository's test
configuration and a concrete mixed-case filename. -/
theorem claim_C5_witness :
    ('/' ∉ str "photo.JPG") ∧
      (newCategoryResolver cfgEx).categoryFor (str "photo.JPG")
        = claimedCategoryFor (newCategoryResolver cfgEx) (str "photo.JPG") :=
  ⟨by decide, claim_C5 cfgEx (str "photo.JPG") (by decide)⟩

/-! ## The date resolver: extraction cascade and pattern loop -/

theorem scanFirstToken_cons (k : Nat) (t : GoStr) (rest : List GoStr) :
    scanFirstToken k (t :: rest) =
      if t.length = k ∧ allDigits t = true then t else scanFirstToken k rest := by
  by_cases h1 : t.length = k <;> by_cases h2 : allDigits t = true <;>
    simp [scanFirstToken, List.filter_cons, h1, h2]

theorem fallbackLoop_eq (l : List GoStr) (y m : GoStr) :
    fallbackLoop l y m =
      ((if y = [] then scanFirstToken 4 l else y),
       (if m = [] then scanFirstToken 2 l else m)) := by
  induction l generalizing y m with
  | nil =>
    simp only [fallbackLoop, scanFirstToken, List.filter_nil, List.headD,
      Prod.mk.injEq]
    constructor <;> split <;> simp_all
  | cons t rest ih =>
    rw [scanFirstToken_cons, scanFirstToken_cons]
    simp only [fallbackLoop]
    by_cases hA : t.length = 4 ∧ allDigits t = true ∧ y = []
    · obtain ⟨h4, hd, hy⟩ := hA
      rw [if_pos ⟨h4, hd, hy⟩, ih]
      have ht : ¬ t = [] := by rintro rfl; simp at h4
      have ht2 : ¬ (t.length = 2 ∧ allDigits t = true) := by
        rintro ⟨h2, _⟩; omega
      simp [hy, ht, h4, hd, ht2]
    · rw [if_neg hA]
      by_cases hm : m = []
      · subst hm
        by_cases ht2 : t.length = 2 ∧ allDigits t = true
        · have ht : ¬ t = [] := by rintro rfl; simp at ht2
          simp only [ht2.1, ht2.2, and_self, and_true, if_true, true_and]
          by_cases hy : y = []
          · subst hy
            have ht4 : ¬ (t.length = 4 ∧ allDigits t = true) := by
              intro hc; exact hA ⟨hc.1, hc.2, rfl⟩
            simp only [ne_eq, not_true_eq_false, false_and, and_false,
              if_false, ih, ht, if_true, ht4]
            simp [ht]
          · simp [hy, ht, ht2.1, ht2.2]
        · have hm2 : (if t.length = 2 ∧ allDigits t = true ∧ ([] : GoStr) = []
              then t else []) = ([] : GoStr) := by
            rw [if_neg]; rintro ⟨h2, hd2, _⟩; exact ht2 ⟨h2, hd2⟩
          simp only [hm2, ne_eq, not_true_eq_false, and_false, if_false, ih,
            if_pos rfl]
          by_cases hy : y = []
          · subst hy
            have ht4 : ¬ (t.length = 4 ∧ allDigits t = true) := by
              intro hc; exact hA ⟨hc.1, hc.2, rfl⟩
            simp [ht4, ht2]
          · simp [hy, ht2]
      · have hm2 : (if t.length = 2 ∧ allDigits t = true ∧ m = []
            then t else m) = m := by
          rw [if_neg]; rintro ⟨_, _, hc⟩; exact hm hc
        simp only [hm2, if_neg hm]
        by_cases hy : y = []
        · subst hy
          have ht4 : ¬ (t.length = 4 ∧ allDigits t = true) := by
            intro hc; exact hA ⟨hc.1, hc.2, rfl⟩
          simp only [ne_eq, not_true_eq_false, false_and, if_false, ih,
            if_pos rfl, if_neg hm, ht4]
        · simp [hy, hm]

/-- C3 counterexample: on the pattern `(?P<year>\d{2})(\d{2})` and the
filename "2024" the code resolves `("2024", "202420")` — the named year
"20" is non-empty, so the positional branch is skipped even though no
named month exists, and the fallback rescan recomputes both from the
whole match slice, taking the year from the full match at index 0 —
whereas the claim's cascade (positional, because the named groups are
not both non-empty) yields `("20", "24")`, fails the length check, and
resolves nothing. -/
theorem claim_C3_counterexample :
    dateResolver.resolve ⟨[cexPattern]⟩ (str "2024")
        = some (str "2024", str "202420") ∧
      claimedResolveLoop [cexPattern] (str "2024") = none := by
  exact ⟨by decide, by decide⟩

/-- C3 (amended): for every matching date pattern, year and month are
extracted as follows: year is assigned from the group named "year" and
month from the group named "month", each independently (staying empty
when the group is absent or did not capture); if year is empty after
that and the match slice has at least three entries (the full match
plus at least two captured groups), year and month are both overwritten
with the first two captured groups positionally; if year or month is
still empty after that, both are recomputed by scanning the entire
match slice — the full match at index 0 included — left to right for
the first 4-digit all-numeric token (year) and the first 2-digit
all-numeric token (month). -/
theorem claim_C3_amended (subexp ms : List GoStr) :
    extractYearMonth subexp ms = amendedExtractYearMonth subexp ms := by
  simp only [extractYearMonth, amendedExtractYearMonth, fallbackYearMonth,
    fallbackLoop_eq]
  split <;> rfl

/-- C6: the date resolver tries the configured patterns in listed
order; with no patterns left the result is `found = false`; a pattern
that does not match is passed over; the first matching pattern whose
extracted pair has a 4-character year and a 2-character month wins, the
result is `(year, year ++ month)`, and later patterns are not
consulted; a matching pattern whose pair fails the length check is
treated as a non-match and the next pattern is tried. -/
theorem claim_C6 :
    (∀ name, dateResolver.resolve ⟨[]⟩ name = none) ∧
    (∀ re rest name, re.findSubmatch name = none →
      dateResolver.resolve ⟨re :: rest⟩ name = dateResolver.resolve ⟨rest⟩ name) ∧
    (∀ re rest name ms, re.findSubmatch name = some ms →
      (extractYearMonth re.subexpNames ms).1.length = 4 →
      (extractYearMonth re.subexpNames ms).2.length = 2 →
      dateResolver.resolve ⟨re :: rest⟩ name
        = some ((extractYearMonth re.subexpNames ms).1,
            (extractYearMonth re.subexpNames ms).1
              ++ (extractYearMonth re.subexpNames ms).2)) ∧
    (∀ re rest name ms, re.findSubmatch name = some ms →
      ¬ ((extractYearMonth re.subexpNames ms).1.length = 4 ∧
          (extractYearMonth re.subexpNames ms).2.length = 2) →
      dateResolver.resolve ⟨re :: rest⟩ name = dateResolver.resolve ⟨rest⟩ name) := by
  refine ⟨fun name => rfl, fun re rest name h => ?_, ?_, ?_⟩
  · simp [dateResolver.resolve, resolveLoop, h]
  · intro re rest name ms h h4 h2
    simp [dateResolver.resolve, resolveLoop, h, h4, h2]
  · intro re rest name ms h hno
    simp only [dateResolver.resolve, resolveLoop, h]
    rw [if_neg hno]

/-- C6 witness: the theorem's winning-pattern conjunct applied to the
model of `(\d{4})-(\d{2})` on "2024-01". -/
theorem claim_C6_witness :
    dateResolver.resolve ⟨[patYM]⟩ (str "2024-01")
      = some (str "2024", str "202401") := by
  have h := claim_C6.2.2.1 patYM [] (str "2024-01")
    [str "2024-01", str "2024", str "01"] (by decide) (by decide) (by decide)
  exact h.trans (by decide)

/-! ## The destination namer -/

theorem probeLoop_spec (fsE : GoStr → Bool) (dir base ext : GoStr) :
    ∀ (fuel i j : Nat), i ≤ j →
      fsE (goJoin dir (base ++ '_' :: natChars j ++ ext)) = false →
      (∀ k, i ≤ k → k < j →
        fsE (goJoin dir (base ++ '_' :: natChars k ++ ext)) = true) →
      j - i < fuel →
      probeLoop fsE dir base ext i fuel
        = some (goJoin dir (base ++ '_' :: natChars j ++ ext)) := by
  intro fuel
  induction fuel with
  | zero => intro i j _ _ _ h; omega
  | succ fuel ih =>
    intro i j hij hfree hocc hfuel
    simp only [probeLoop]
    rcases Nat.eq_or_lt_of_le hij with heq | hlt
    · subst heq
      rw [hfree]
      simp
    · rw [hocc i le_rfl hlt]
      simp only [if_true]
      exact ih (i + 1) j hlt hfree (fun k hk => hocc k (by omega)) (by omega)

theorem probeLoop_fresh (fsE : GoStr → Bool) (dir base ext : GoStr) :
    ∀ (fuel i : Nat) (p : GoStr),
      probeLoop fsE dir base ext i fuel = some p → fsE p = false := by
  intro fuel
  induction fuel with
  | zero => intro i p h; simp [probeLoop] at h
  | succ fuel ih =>
    intro i p h
    simp only [probeLoop] at h
    split at h
    · exact ih (i + 1) p h
    · next hocc =>
      cases h
      simpa using hocc

theorem uniqueDestPath_fresh (fsE : GoStr → Bool) (dir name : GoStr)
    (fuel : Nat) (p : GoStr) (h : uniqueDestPath fsE dir name fuel = some p) :
    fsE p = false := by
  simp only [uniqueDestPath] at h
  split at h
  · exact probeLoop_fresh fsE dir _ _ fuel 1 p h
  · next hocc => cases h; simpa using hocc

/-- C7: `uniqueDestPath` returns `targetDir/desiredName` unchanged when
that path does not exist; otherwise it splits the name into base and
extension at the last dot (extension empty when there is no dot — this
is `candidateName`) and probes `base_1.ext`, `base_2.ext`, ... in
increasing integer order, returning the first candidate that does not
exist: if every candidate strictly before index `j` exists and the
candidate at `j` does not (and the probe fuel covers `j`), the result
is candidate `j`. -/
theorem claim_C7 :
    (∀ (fsE : GoStr → Bool) (dir name : GoStr) (fuel : Nat),
      fsE (goJoin dir name) = false →
      uniqueDestPath fsE dir name fuel = some (goJoin dir name)) ∧
    (∀ (fsE : GoStr → Bool) (dir name : GoStr) (fuel j : Nat),
      fsE (goJoin dir name) = true → 1 ≤ j →
      fsE (goJoin dir (candidateName name j)) = false →
      (∀ k, 1 ≤ k → k < j →
        fsE (goJoin dir (candidateName name k)) = true) →
      j ≤ fuel →
      uniqueDestPath fsE dir name fuel
        = some (goJoin dir (candidateName name j))) := by
  constructor
  · intro fsE dir name fuel h
    simp [uniqueDestPath, h]
  · intro fsE dir name fuel j htarget hj hfree hocc hfuel
    simp only [uniqueDestPath, htarget, if_true]
    exact probeLoop_spec fsE dir _ _ fuel 1 j hj hfree hocc (by omega)

/-- C7 witness: with `/d/images/a.jpg` and `/d/images/a_1.jpg` both
present, the namer returns `/d/images/a_2.jpg`. -/
theorem claim_C7_witness :
    uniqueDestPath
        (fun p => ([str "/d/images/a.jpg", str "/d/images/a_1.jpg"]
          : List GoStr).contains p)
        (str "/d/images") (str "a.jpg") 2
      = some (goJoin (str "/d/images") (candidateName (str "a.jpg") 2)) := by
  refine claim_C7.2 _ (str "/d/images") (str "a.jpg") 2 2 (by decide)
    (by decide) (by decide) ?_ (by decide)
  intro k h1 h2
  have : k = 1 := by omega
  subst this
  decide

/-! ## Step lemmas for the walk orchestrator -/

theorem processFile_gate (ctx : RunCtx) (st : RunState) (f : FileEntry)
    (h : gated ctx f) : processFile ctx st f = some st := by
  unfold gated at h
  simp only [processFile]
  rw [if_pos h]

theorem processFile_dup (ctx : RunCtx) (st : RunState) (f : FileEntry)
    (p : GoStr) (hg : ¬ gated ctx f)
    (hl : mapLookup st.hashIndex f.hash = some p) :
    processFile ctx st f
      = some { st with skipped := st.skipped ++ [⟨f.path, p⟩] } := by
  unfold gated at hg
  simp only [processFile]
  rw [if_neg hg, hl]

theorem processFile_copy (ctx : RunCtx) (st : RunState) (f : FileEntry)
    (hg : ¬ gated ctx f) (hl : mapLookup st.hashIndex f.hash = none) :
    processFile ctx st f
      = (match uniqueDestPath
            (fun p => (st.fs
              ++ (targetDirs ctx (ctx.resolver.categoryFor f.name) f.name).2).contains p)
            (targetDirs ctx (ctx.resolver.categoryFor f.name) f.name).1
            f.name ctx.fuel with
        | none => none
        | some finalPath =>
          some { fs := st.fs
                   ++ (targetDirs ctx (ctx.resolver.categoryFor f.name) f.name).2
                   ++ [finalPath],
                 hashIndex := mapSet st.hashIndex f.hash finalPath,
                 skipped := st.skipped,
                 copies := st.copies ++ [(f.path, finalPath)] }) := by
  unfold gated at hg
  simp only [processFile]
  rw [if_neg hg, hl]

theorem processFile_copy_some (ctx : RunCtx) (st : RunState) (f : FileEntry)
    (st' : RunState) (hg : ¬ gated ctx f)
    (hl : mapLookup st.hashIndex f.hash = none)
    (h : processFile ctx st f = some st') :
    ∃ d, (st.fs
        ++ (targetDirs ctx (ctx.resolver.categoryFor f.name) f.name).2).contains d
          = false ∧
      st' = { fs := st.fs
                ++ (targetDirs ctx (ctx.resolver.categoryFor f.name) f.name).2
                ++ [d],
              hashIndex := mapSet st.hashIndex f.hash d,
              skipped := st.skipped,
              copies := st.copies ++ [(f.path, d)] } := by
  rw [processFile_copy ctx st f hg hl] at h
  split at h
  · exact absurd h (by simp)
  · next d hu =>
    cases h
    exact ⟨d, uniqueDestPath_fresh _ _ _ _ _ hu, rfl⟩

/-- C4: a regular file whose resolved category is "images" and whose
size is strictly below 1 MiB is skipped entirely before hashing — the
state is returned unchanged: no copy, no warning record, no dedup
bookkeeping; and the size gate never applies to any other category: for
a file of any other category the outcome does not depend on its size at
all. -/
theorem claim_C4 :
    (∀ (ctx : RunCtx) (st : RunState) (f : FileEntry),
      ctx.resolver.categoryFor f.name = str "images" →
      f.size < minImageSize →
      processFile ctx st f = some st) ∧
    (∀ (ctx : RunCtx) (st : RunState) (f : FileEntry) (s s' : Int),
      ctx.resolver.categoryFor f.name ≠ str "images" →
      processFile ctx st { f with size := s }
        = processFile ctx st { f with size := s' }) := by
  constructor
  · intro ctx st f h1 h2
    exact processFile_gate ctx st f ⟨h1, h2⟩
  · intro ctx st f s s' h
    obtain ⟨fp, fn, fs, fh⟩ := f
    simp only [processFile]
    rw [if_neg, if_neg]
    · rintro ⟨hc, _⟩; exact h hc
    · rintro ⟨hc, _⟩; exact h hc

/-- C4 witness: a 5-byte image is passed over with the state unchanged,
and a text file's processing is independent of its size. -/
theorem claim_C4_witness :
    processFile ctxEx stEmpty ⟨str "/s/a.jpg", str "a.jpg", 5, str "h1"⟩
        = some stEmpty ∧
      processFile ctxEx stEmpty ⟨str "/s/d.txt", str "d.txt", 5, str "h2"⟩
        = processFile ctxEx stEmpty
            ⟨str "/s/d.txt", str "d.txt", 2 ^ 21, str "h2"⟩ :=
  ⟨claim_C4.1 ctxEx stEmpty ⟨str "/s/a.jpg", str "a.jpg", 5, str "h1"⟩
      (by decide) (by decide),
    claim_C4.2 ctxEx stEmpty ⟨str "/s/d.txt", str "d.txt", 0, str "h2"⟩
      5 (2 ^ 21) (by decide)⟩

/-- C2: a regular file whose processing step succeeds produces exactly
one of three outcomes — (a) a copy at a destination path that did not
previously exist, (b) a recorded skip as a content duplicate, (c) a
silent unrecorded skip as an undersized image — never zero and never
more than one. -/
theorem claim_C2 (ctx : RunCtx) (st st' : RunState) (f : FileEntry)
    (h : processFile ctx st f = some st') :
    (copyOutcome st st' f ∨ dupOutcome st st' f ∨ gateOutcome ctx st st' f)
      ∧ ¬ (copyOutcome st st' f ∧ dupOutcome st st' f)
      ∧ ¬ (copyOutcome st st' f ∧ gateOutcome ctx st st' f)
      ∧ ¬ (dupOutcome st st' f ∧ gateOutcome ctx st st' f) := by
  refine ⟨?_, ?_, ?_, ?_⟩
  · by_cases hg : gated ctx f
    · refine Or.inr (Or.inr ⟨hg, ?_⟩)
      rw [processFile_gate ctx st f hg] at h
      exact (Option.some.inj h).symm
    · cases hl : mapLookup st.hashIndex f.hash with
      | some p =>
        rw [processFile_dup ctx st f p hg hl] at h
        refine Or.inr (Or.inl ⟨p, hl, ?_, ?_⟩) <;>
          rw [← Option.some.inj h]
      | none =>
        obtain ⟨d, hfresh, rfl⟩ := processFile_copy_some ctx st f st' hg hl h
        refine Or.inl ⟨d, ?_, rfl, rfl⟩
        intro hmem
        have hmem' : d ∈ st.fs
            ++ (targetDirs ctx (ctx.resolver.categoryFor f.name) f.name).2 :=
          List.mem_append_left _ hmem
        have := (by simpa using hfresh :
          d ∉ st.fs ++ (targetDirs ctx (ctx.resolver.categoryFor f.name) f.name).2)
        exact this hmem'
  · rintro ⟨⟨d1, _, hc1, _⟩, ⟨d2, _, hc2, _⟩⟩
    rw [hc2] at hc1
    simpa using congrArg List.length hc1
  · rintro ⟨⟨d1, _, hc1, _⟩, ⟨_, rfl⟩⟩
    simpa using congrArg List.length hc1
  · rintro ⟨⟨d2, _, _, hs2⟩, ⟨_, rfl⟩⟩
    simpa using congrArg List.length hs2

/-- C2 witness: the 2 MiB image copied from the empty state realizes
the copy outcome and excludes the other two. -/
theorem claim_C2_witness :
    (copyOutcome stEmpty stAfterEx fBigEx ∨ dupOutcome stEmpty stAfterEx fBigEx
        ∨ gateOutcome ctxEx stEmpty stAfterEx fBigEx)
      ∧ ¬ (copyOutcome stEmpty stAfterEx fBigEx
            ∧ dupOutcome stEmpty stAfterEx fBigEx)
      ∧ ¬ (copyOutcome stEmpty stAfterEx fBigEx
            ∧ gateOutcome ctxEx stEmpty stAfterEx fBigEx)
      ∧ ¬ (dupOutcome stEmpty stAfterEx fBigEx
            ∧ gateOutcome ctxEx stEmpty stAfterEx fBigEx) :=
  claim_C2 ctxEx stEmpty stAfterEx fBigEx (by decide)

/-! ## Walk-level lemmas -/

theorem mapLookup_cons (k v k' : GoStr) (m : List (GoStr × GoStr)) :
    mapLookup ((k, v) :: m) k' = if k = k' then some v else mapLookup m k' := by
  rfl

theorem runWalk_append (ctx : RunCtx) (l1 l2 : List WalkEntry) (st : RunState) :
    runWalk ctx (l1 ++ l2) st
      = (runWalk ctx l1 st).bind (runWalk ctx l2) := by
  induction l1 generalizing st with
  | nil => simp [runWalk]
  | cons e rest ih =>
    simp only [List.cons_append, runWalk]
    cases processEntry ctx st e with
    | none => simp
    | some st1 => simpa using ih st1

theorem processFile_mono (ctx : RunCtx) (st : RunState) (f : FileEntry)
    (st' : RunState) (h : processFile ctx st f = some st') :
    (∃ t, st'.copies = st.copies ++ t) ∧ (∃ t, st'.skipped = st.skipped ++ t)
      ∧ (∀ h' p, mapLookup st.hashIndex h' = some p →
          mapLookup st'.hashIndex h' = some p) := by
  by_cases hg : gated ctx f
  · rw [processFile_gate ctx st f hg] at h
    cases h
    exact ⟨⟨[], by simp⟩, ⟨[], by simp⟩, fun h' p hp => hp⟩
  · cases hl : mapLookup st.hashIndex f.hash with
    | some p =>
      rw [processFile_dup ctx st f p hg hl] at h
      cases h
      exact ⟨⟨[], by simp⟩, ⟨[⟨f.path, p⟩], rfl⟩, fun h' p hp => hp⟩
    | none =>
      obtain ⟨d, _, rfl⟩ := processFile_copy_some ctx st f st' hg hl h
      refine ⟨⟨[(f.path, d)], rfl⟩, ⟨[], by simp⟩, fun h' p hp => ?_⟩
      simp only [mapSet, mapLookup_cons]
      rw [if_neg]
      · exact hp
      · rintro rfl
        rw [hl] at hp
        cases hp

theorem processEntry_mono (ctx : RunCtx) (st : RunState) (e : WalkEntry)
    (st' : RunState) (h : processEntry ctx st e = some st') :
    (∃ t, st'.copies = st.copies ++ t) ∧ (∃ t, st'.skipped = st.skipped ++ t)
      ∧ (∀ h' p, mapLookup st.hashIndex h' = some p →
          mapLookup st'.hashIndex h' = some p) := by
  cases e with
  | dir p =>
    cases h
    exact ⟨⟨[], by simp⟩, ⟨[], by simp⟩, fun h' p hp => hp⟩
  | irregular p =>
    cases h
    exact ⟨⟨[], by simp⟩, ⟨[], by simp⟩, fun h' p hp => hp⟩
  | file f => exact processFile_mono ctx st f st' h

theorem runWalk_mono (ctx : RunCtx) (l : List WalkEntry) (st st' : RunState)
    (h : runWalk ctx l st = some st') :
    (∃ t, st'.copies = st.copies ++ t) ∧ (∃ t, st'.skipped = st.skipped ++ t)
      ∧ (∀ h' p, mapLookup st.hashIndex h' = some p →
          mapLookup st'.hashIndex h' = some p) := by
  induction l generalizing st with
  | nil =>
    cases h
    exact ⟨⟨[], by simp⟩, ⟨[], by simp⟩, fun h' p hp => hp⟩
  | cons e rest ih =>
    simp only [runWalk] at h
    cases he : processEntry ctx st e with
    | none => rw [he] at h; cases h
    | some st1 =>
      rw [he] at h
      obtain ⟨⟨t1, hc1⟩, ⟨u1, hs1⟩, hidx1⟩ := processEntry_mono ctx st e st1 he
      obtain ⟨⟨t2, hc2⟩, ⟨u2, hs2⟩, hidx2⟩ := ih st1 h
      exact ⟨⟨t1 ++ t2, by rw [hc2, hc1, List.append_assoc]⟩,
        ⟨u1 ++ u2, by rw [hs2, hs1, List.append_assoc]⟩,
        fun h' p hp => hidx2 h' p (hidx1 h' p hp)⟩

theorem processEntry_no_introduce (ctx : RunCtx) (st : RunState)
    (e : WalkEntry) (st' : RunState) (hh : GoStr)
    (hno : ¬ introducesHash ctx hh e)
    (hl : mapLookup st.hashIndex hh = none)
    (h : processEntry ctx st e = some st') :
    mapLookup st'.hashIndex hh = none := by
  cases e with
  | dir p => cases h; exact hl
  | irregular p => cases h; exact hl
  | file f =>
    by_cases hg : gated ctx f
    · rw [show processEntry ctx st (WalkEntry.file f) = processFile ctx st f
        from rfl, processFile_gate ctx st f hg] at h
      cases h; exact hl
    · cases hlf : mapLookup st.hashIndex f.hash with
      | some p =>
        rw [show processEntry ctx st (WalkEntry.file f) = processFile ctx st f
          from rfl, processFile_dup ctx st f p hg hlf] at h
        cases h; exact hl
      | none =>
        obtain ⟨d, _, rfl⟩ := processFile_copy_some ctx st f st' hg hlf h
        have hne : f.hash ≠ hh := fun hc =>
          hno (by exact ⟨hg, hc⟩)
        simp only [mapSet, mapLookup_cons, if_neg hne]
        exact hl

theorem runWalk_no_introduce (ctx : RunCtx) (l : List WalkEntry)
    (st st' : RunState) (hh : GoStr)
    (hno : ∀ e ∈ l, ¬ introducesHash ctx hh e)
    (hl : mapLookup st.hashIndex hh = none)
    (h : runWalk ctx l st = some st') :
    mapLookup st'.hashIndex hh = none := by
  induction l generalizing st with
  | nil => cases h; exact hl
  | cons e rest ih =>
    simp only [runWalk] at h
    cases he : processEntry ctx st e with
    | none => rw [he] at h; cases h
    | some st1 =>
      rw [he] at h
      exact ih st1 (fun e' he' => hno e' (List.mem_cons_of_mem e he'))
        (processEntry_no_introduce ctx st e st1 hh
          (hno e (List.mem_cons_self e rest)) hl he) h

/-- C1: in any run, when a regular file `f1` is the first
non-size-gated file of its content hash in walk order (nothing before
it introduces the hash and the hash is not in the index at the start),
`f1` is copied to some destination `d`, and any later non-gated file
`f2` with the same hash is not copied — its processing step changes
nothing but the skip list — and a SkippedEntry `(f2.path, d)`, the
later file's source path paired with the first file's recorded
destination, is appended; both facts survive to the final state, so the
warn.csv row for the duplicate is `(secondSourcePath, firstDestPath)`. -/
theorem claim_C1 (ctx : RunCtx) (st0 : RunState) (l1 l2 l3 : List WalkEntry)
    (f1 f2 : FileEntry) (st' : RunState)
    (hrun : runWalk ctx
      (l1 ++ WalkEntry.file f1 :: (l2 ++ WalkEntry.file f2 :: l3)) st0
        = some st')
    (hg1 : ¬ gated ctx f1) (hg2 : ¬ gated ctx f2)
    (hh : f2.hash = f1.hash)
    (hfresh : mapLookup st0.hashIndex f1.hash = none)
    (hfirst : ∀ e ∈ l1, ¬ introducesHash ctx f1.hash e) :
    ∃ d st1 st2 st3,
      runWalk ctx l1 st0 = some st1 ∧
      processFile ctx st1 f1 = some st2 ∧
      st2.copies = st1.copies ++ [(f1.path, d)] ∧
      runWalk ctx l2 st2 = some st3 ∧
      processFile ctx st3 f2
        = some { st3 with skipped := st3.skipped ++ [⟨f2.path, d⟩] } ∧
      (f1.path, d) ∈ st'.copies ∧
      (⟨f2.path, d⟩ : skippedEntry) ∈ st'.skipped := by
  rw [runWalk_append] at hrun
  cases h1 : runWalk ctx l1 st0 with
  | none => rw [h1] at hrun; cases hrun
  | some st1 =>
    rw [h1] at hrun
    simp only [Option.some_bind, runWalk] at hrun
    cases h2 : processFile ctx st1 f1 with
    | none =>
      rw [show processEntry ctx st1 (WalkEntry.file f1) = processFile ctx st1 f1
        from rfl, h2] at hrun
      cases hrun
    | some st2 =>
      rw [show processEntry ctx st1 (WalkEntry.file f1) = processFile ctx st1 f1
        from rfl, h2] at hrun
      have hrun2 : runWalk ctx (l2 ++ WalkEntry.file f2 :: l3) st2 = some st' :=
        hrun
      have hl1 : mapLookup st1.hashIndex f1.hash = none :=
        runWalk_no_introduce ctx l1 st0 st1 f1.hash hfirst hfresh h1
      obtain ⟨d, hdfresh, hst2⟩ :=
        processFile_copy_some ctx st1 f1 st2 hg1 hl1 h2
      have hidx2 : mapLookup st2.hashIndex f1.hash = some d := by
        rw [hst2]
        simp [mapSet, mapLookup_cons]
      rw [runWalk_append] at hrun2
      cases h3 : runWalk ctx l2 st2 with
      | none => rw [h3] at hrun2; cases hrun2
      | some st3 =>
        rw [h3] at hrun2
        simp only [Option.some_bind, runWalk] at hrun2
        have hidx3 : mapLookup st3.hashIndex f1.hash = some d :=
          (runWalk_mono ctx l2 st2 st3 h3).2.2 f1.hash d hidx2
        have h4 : processFile ctx st3 f2
            = some { st3 with skipped := st3.skipped ++ [⟨f2.path, d⟩] } :=
          processFile_dup ctx st3 f2 d hg2 (by rw [hh]; exact hidx3)
        rw [show processEntry ctx st3 (WalkEntry.file f2)
          = processFile ctx st3 f2 from rfl, h4] at hrun2
        have hrun3 : runWalk ctx l3
            { st3 with skipped := st3.skipped ++ [⟨f2.path, d⟩] } = some st' :=
          hrun2
        obtain ⟨⟨t3, hc3⟩, ⟨u3, hs3⟩, _⟩ :=
          runWalk_mono ctx l3 _ st' hrun3
        obtain ⟨⟨t2, hc2⟩, _, _⟩ := runWalk_mono ctx l2 st2 st3 h3
        refine ⟨d, st1, st2, st3, rfl, h2, by rw [hst2], h3, h4, ?_, ?_⟩
        · rw [hc3]
          simp only [RunState.copies] at hc2 ⊢
          rw [hc2, hst2]
          simp
        · rw [hs3]
          simp

/-- C1 witness: the two-file run `fBigEx` then `fDupEx` from the empty
state, where the second is suppressed in favor of the first file's
destination `/d/images/a.jpg`. -/
theorem claim_C1_witness :
    ∃ d st1 st2 st3,
      runWalk ctxEx [] stEmpty = some st1 ∧
      processFile ctxEx st1 fBigEx = some st2 ∧
      st2.copies = st1.copies ++ [(fBigEx.path, d)] ∧
      runWalk ctxEx [] st2 = some st3 ∧
      processFile ctxEx st3 fDupEx
        = some { st3 with skipped := st3.skipped ++ [⟨fDupEx.path, d⟩] } ∧
      (fBigEx.path, d) ∈ stDupEx.copies ∧
      (⟨fDupEx.path, d⟩ : skippedEntry) ∈ stDupEx.skipped :=
  claim_C1 ctxEx stEmpty [] [] []
    fBigEx fDupEx stDupEx (by decide) (by decide) (by decide) (by decide)
    (by decide) (fun e he => absurd he (List.not_mem_nil e))

/-- C9: after a walk that completes without fatal error, the report
`<dest>/warn.csv` is produced if and only if at least one SkippedEntry
was recorded, and it then holds exactly one two-column row
`(sourcePath, existingDestPath)` per suppressed duplicate, in recording
order; with no duplicates no report file is created. -/
theorem claim_C9 (ctx : RunCtx) (entries : List WalkEntry) (st0 st : RunState)
    (report : Option (GoStr × List (List GoStr)))
    (h : classifierRun ctx entries st0 = some (st, report)) :
    (report = none ↔ st.skipped = []) ∧
    (st.skipped ≠ [] →
      report = some (goJoin ctx.dest (str "warn.csv"),
        st.skipped.map fun e => [e.srcPath, e.destPath])) := by
  simp only [classifierRun] at h
  cases hw : runWalk ctx entries st0 with
  | none => rw [hw] at h; cases h
  | some st1 =>
    rw [hw] at h
    simp only [Option.some.injEq, Prod.mk.injEq] at h
    obtain ⟨rfl, hr⟩ := h
    subst hr
    constructor
    · constructor
      · intro hnone
        by_contra hne
        rw [if_pos (by simpa [List.length_pos] using hne)] at hnone
        cases hnone
      · intro hempty
        rw [if_neg (by simp [hempty])]
    · intro hne
      rw [if_pos (by simpa [List.length_pos] using hne)]
      rfl

/-- C9 witness: the duplicate-producing two-file run yields a report at
`/d/warn.csv` with exactly the one recorded row, and the report is not
`none`. -/
theorem claim_C9_witness :
    ((some (goJoin ctxEx.dest (str "warn.csv"), writeWarnings stDupEx.skipped)
        : Option (GoStr × List (List GoStr))) = none ↔ stDupEx.skipped = []) ∧
    (stDupEx.skipped ≠ [] →
      (some (goJoin ctxEx.dest (str "warn.csv"), writeWarnings stDupEx.skipped)
        : Option (GoStr × List (List GoStr)))
        = some (goJoin ctxEx.dest (str "warn.csv"),
            stDupEx.skipped.map fun e => [e.srcPath, e.destPath])) :=
  claim_C9 ctxEx [WalkEntry.file fBigEx, WalkEntry.file fDupEx] stEmpty
    stDupEx (some (goJoin ctxEx.dest (str "warn.csv"),
      writeWarnings stDupEx.skipped)) (by decide)

/-- C10: every regular file that passes the image-size gate is hashed
and deduplicated against the single global index keyed by content hash
alone, whatever its resolved category: when the hash is already in the
index (no matter which category recorded it) the file is suppressed
with a skip record pointing at the recorded path, and when it is not,
the file is copied and the index gains exactly the binding from its
hash to its destination. -/
theorem claim_C10 (ctx : RunCtx) (st : RunState) (f : FileEntry)
    (hg : ¬ gated ctx f) :
    (∀ p, mapLookup st.hashIndex f.hash = some p →
      processFile ctx st f
        = some { st with skipped := st.skipped ++ [⟨f.path, p⟩] }) ∧
    (∀ st', mapLookup st.hashIndex f.hash = none →
      processFile ctx st f = some st' →
      ∃ d, st'.hashIndex = (f.hash, d) :: st.hashIndex ∧
        st'.copies = st.copies ++ [(f.path, d)]) := by
  constructor
  · intro p hp
    exact processFile_dup ctx st f p hg hp
  · intro st' hl h
    obtain ⟨d, _, rfl⟩ := processFile_copy_some ctx st f st' hg hl h
    exact ⟨d, rfl, rfl⟩

/-- C10 witness: an image whose bytes match an already-copied text
file — a different category — is deduplicated against it. -/
theorem claim_C10_witness :
    processFile ctxEx stTxtEx fJpgDup
      = some { stTxtEx with
          skipped := stTxtEx.skipped
            ++ [⟨fJpgDup.path, str "/d/documents/delta.txt"⟩] } :=
  (claim_C10 ctxEx stTxtEx fJpgDup (by decide)).1
    (str "/d/documents/delta.txt") (by decide)

/-- C8: an invocation whose positional argument count is not exactly
two, or whose source or destination is not absolute, fails before any
filesystem mutation: `run` returns a usage error (so the process exits
with status 1), no directory is created — in particular the destination
— and in the non-absolute case (argument count two) the message
mentions "absolute". -/
theorem claim_C8 (args : List GoStr) (cfgOk : Bool) (srcIsDir : Option Bool)
    (h : args.length ≠ 2
      ∨ ¬ (goIsAbs (args.getD 0 []) = true ∧ goIsAbs (args.getD 1 []) = true)) :
    ∃ m, (startup args cfgOk srcIsDir).1 = .error (.usage m) ∧
      mainExitCode (startup args cfgOk srcIsDir).1 = 1 ∧
      (startup args cfgOk srcIsDir).2 = [] ∧
      (args.length = 2 → List.IsInfix (str "absolute") m) := by
  by_cases hn : args.length = 2
  · have habs : ¬ (goIsAbs (args.getD 0 []) = true
        ∧ goIsAbs (args.getD 1 []) = true) := by
      rcases h with h | h
      · exact absurd hn h
      · exact h
    have hb : (!goIsAbs (args.getD 0 []) || !goIsAbs (args.getD 1 [])) = true := by
      rcases Decidable.not_and_iff_or_not.mp habs with hh | hh <;>
        [exact Bool.or_eq_true_iff.mpr (Or.inl (by simpa using hh));
         exact Bool.or_eq_true_iff.mpr (Or.inr (by simpa using hh))]
    have hca : checkArgs args
        = .error (usageError (str "source and destination must be absolute paths")) := by
      simp only [checkArgs]
      rw [if_neg (by omega : ¬ args.length ≠ 2), if_pos hb]
    refine ⟨usageError (str "source and destination must be absolute paths"),
      ?_, ?_, ?_, fun _ => by decide⟩ <;>
      simp [startup, hca, mainExitCode]
  · have hca : checkArgs args
        = .error (usageError (str "expected 2 arguments: <src-abs-dir> <dest-abs-dir>")) := by
      simp only [checkArgs]
      rw [if_pos hn]
    refine ⟨usageError (str "expected 2 arguments: <src-abs-dir> <dest-abs-dir>"),
      ?_, ?_, ?_, fun hc => absurd hc hn⟩ <;>
      simp [startup, hca, mainExitCode]

/-- C8 witness: the relative invocation `classifier src dest` from the
test suite fails with a usage error mentioning "absolute" and creates
nothing. -/
theorem claim_C8_witness :
    ∃ m, (startup [str "src", str "dest"] true (some true)).1
        = .error (.usage m) ∧
      mainExitCode (startup [str "src", str "dest"] true (some true)).1 = 1 ∧
      (startup [str "src", str "dest"] true (some true)).2 = [] ∧
      ([str "src", str "dest"].length = 2 → List.IsInfix (str "absolute") m) :=
  claim_C8 [str "src", str "dest"] true (some true) (Or.inr (by decide))

end Classifier
